import Mathlib

/-!
Verification of the localstore garbage collector
(src/swarm/storage/localstore/gc.go).

The embedding models, faithfully to the Go source:
  - gcTarget: Go computes int64(float64(db.capacity) * gcTargetRatio) with
    gcTargetRatio = 0.9.  Go float64 arithmetic is IEEE-754 binary64 with
    round-to-nearest-even, so we model the constant 0.9 by its exact binary64
    value 8106479329266893 / 2^53 and model the conversion and the
    multiplication by exact round-to-nearest-even over the rationals.
  - incGCSize: atomic add to db.gcSize followed by a non-blocking send on a
    single-slot trigger channel when the new value reaches db.capacity.
  - collectGarbage: one iteration of the collector loop body (one pass
    triggered by one signal): drain one signal, iterate the gc index with the
    per-item callback, then attempt the batch commit, and on success apply
    the batch, decrement the accountant through incGCSize and possibly
    re-arm the trigger.
Iteration over the leveldb index is modelled by the list of items the index
would yield in ascending priority order; a possible mid-scan iterator error
is modelled by an optional count of items yielded before the error.  The
single-slot channel is modelled by a natural number counting pending
signals, with the non-blocking send dropping the signal when one is pending.
-/

/-- Chunk references are abstract; only identity matters to the collector. -/
abbrev Item := ℕ

/-- Fuelled base-2 logarithm on naturals (floor of log2 for positive input),
structurally recursive so that the kernel can evaluate it directly. -/
def log2fuel : ℕ → ℕ → ℕ
  | 0, _ => 0
  | fuel + 1, n => if n ≤ 1 then 0 else log2fuel fuel (n / 2) + 1

/-- Round n / 2 ^ shift to the nearest integer, ties to even: the IEEE-754
default rounding applied to the scaled significand. -/
def roundToGrid (n shift : ℕ) : ℕ :=
  if shift = 0 then n
  else if n % 2 ^ shift < 2 ^ (shift - 1) then n / 2 ^ shift
  else if 2 ^ (shift - 1) < n % 2 ^ shift then n / 2 ^ shift + 1
  else if n / 2 ^ shift % 2 = 0 then n / 2 ^ shift
  else n / 2 ^ shift + 1

/-- Significand of the exact binary64 value of the Go constant
gcTargetRatio = 0.9 (the float64 nearest to 9/10 is 8106479329266893/2^53). -/
def gcTargetRatioSig : ℕ := 8106479329266893

/-- Maximum number of chunks collected in a single pass (Go gcBatchSize). -/
def gcBatchSize : ℤ := 1000

/-- Go conversion float64(c) of a nonnegative int64 value c: exact when c
fits in 53 bits, otherwise rounded to nearest even on the 53-bit significand
grid.  The result of the conversion is an integer, returned exactly. -/
def floatOfNat (c : ℕ) : ℕ :=
  let e := log2fuel 256 c
  if e ≤ 52 then c else roundToGrid c (e - 52) * 2 ^ (e - 52)

/-- IEEE-754 binary64 product of an integral float value a with the constant
0.9: the exact product is a * gcTargetRatioSig / 2^53, which is rounded to
nearest even on the grid of multiples of 2^(L - 52 - 53) where L is the
floor base-2 logarithm of the scaled product.  Returns the rounded
significand m and the grid shift, so the float value is m * 2^shift / 2^53. -/
def floatMul09 (a : ℕ) : ℕ × ℕ :=
  let v := a * gcTargetRatioSig
  let shift := log2fuel 256 v - 52
  (roundToGrid v shift, shift)

/-- Go gcTarget: int64(float64(db.capacity) * gcTargetRatio).  The conversion
of the capacity to float64 and the multiplication each round to nearest even;
the final conversion to int64 truncates, which on these nonnegative values
is the floor, here the natural-number division by 2^53. -/
def gcTarget (capacity : ℕ) : ℤ :=
  let p := floatMul09 (floatOfNat capacity)
  ((p.1 * 2 ^ p.2 / 2 ^ 53 : ℕ) : ℤ)

/-- A leveldb write batch: the queued deletions per index. -/
structure Batch where
  retrievalCompositeDeletes : List Item
  retrievalDataDeletes : List Item
  retrievalAccessDeletes : List Item
  pullDeletes : List Item
  gcDeletes : List Item
deriving DecidableEq

/-- The empty batch. -/
def Batch.empty : Batch := ⟨[], [], [], [], []⟩

/-- The localstore DB state visible to the garbage collector.  The trigger
channel has capacity one; collectGarbageTrigger counts pending signals. -/
structure DB where
  capacity : ℕ
  gcSize : ℤ
  collectGarbageTrigger : ℕ
  useRetrievalCompositeIndex : Bool
  gcIndex : List Item
deriving DecidableEq

/-- Non-blocking send on the single-slot trigger channel: dropped when a
signal is already pending. -/
def sendTrigger (db : DB) : DB :=
  if 1 ≤ db.collectGarbageTrigger then db
  else { db with collectGarbageTrigger := db.collectGarbageTrigger + 1 }

/-- Go incGCSize: atomically add count to gcSize; if the new value reaches
capacity, issue a non-blocking send on the trigger channel. -/
def incGCSize (db : DB) (count : ℤ) : DB :=
  let n := db.gcSize + count
  let db1 : DB := { db with gcSize := n }
  if (db.capacity : ℤ) ≤ n then sendTrigger db1 else db1

/-- State threaded through the gcIndex iteration callback. -/
structure IterState where
  batch : Batch
  collectedCount : ℤ
  triggerNextIteration : Bool
deriving DecidableEq

/-- The per-item callback of the pass (the closure passed to IterateAll):
stop when the accountant minus the already collected count is at target or
below; otherwise queue the deletions of the item in every dependent index
and in the gc index, count it, and stop once the batch cap is reached. -/
def visitItem (gcSize target : ℤ) (useComposite : Bool)
    (st : IterState) (item : Item) : IterState × Bool :=
  if gcSize - st.collectedCount ≤ target then (st, true)
  else
    let b0 := st.batch
    let b1 :=
      if useComposite then
        { b0 with retrievalCompositeDeletes := b0.retrievalCompositeDeletes ++ [item] }
      else
        { b0 with retrievalDataDeletes := b0.retrievalDataDeletes ++ [item],
                  retrievalAccessDeletes := b0.retrievalAccessDeletes ++ [item] }
    let b2 := { b1 with pullDeletes := b1.pullDeletes ++ [item] }
    let b3 := { b2 with gcDeletes := b2.gcDeletes ++ [item] }
    let c := st.collectedCount + 1
    if gcBatchSize ≤ c then (⟨b3, c, true⟩, true)
    else (⟨b3, c, st.triggerNextIteration⟩, false)

/-- IterateAll over the gc index: the list is what the index yields in
ascending priority order; errAfter = some k makes the underlying iterator
fail after yielding k items (none: no iterator error).  Returns the final
callback state, whether the callback stopped the iteration, and whether an
iterator error was reported. -/
def runIterE (gcSize target : ℤ) (useComposite : Bool) :
    IterState → List Item → Option ℕ → IterState × Bool × Bool
  | st, [], _ => (st, false, false)
  | st, item :: rest, fuel =>
    if fuel = some 0 then (st, false, true)
    else if (visitItem gcSize target useComposite st item).2 then
      ((visitItem gcSize target useComposite st item).1, true, false)
    else
      runIterE gcSize target useComposite (visitItem gcSize target useComposite st item).1
        rest (fuel.map fun k => k - 1)

/-- Committing a batch removes the queued gc index deletions from the gc
index (the dependent indexes are not tracked in DB). -/
def applyBatch (db : DB) (b : Batch) : DB :=
  { db with gcIndex := db.gcIndex.filter fun it => ¬ b.gcDeletes.contains it }

/-- Observable outcome of one pass, for stating the claims. -/
structure PassOutcome where
  collectedCount : ℤ
  triggerNextIteration : Bool
  batch : Batch
  iterErrLogged : Bool
  commitErrLogged : Bool
deriving DecidableEq

/-- One iteration of the Go collectGarbage loop body, triggered by one
signal: drain the signal, run the gcIndex iteration, then attempt the batch
commit.  commitErr = true models WriteBatch returning an error: the error is
logged and nothing else happens.  On success the batch is applied, the
accountant is decremented through incGCSize, and the trigger is re-armed if
the batch cap was hit. -/
def collectGarbage (db : DB) (errAfter : Option ℕ) (commitErr : Bool) :
    DB × PassOutcome :=
  let target := gcTarget db.capacity
  let db0 : DB := { db with collectGarbageTrigger := db.collectGarbageTrigger - 1 }
  let res := runIterE db0.gcSize target db0.useRetrievalCompositeIndex
      ⟨Batch.empty, 0, false⟩ db0.gcIndex errAfter
  let st := res.1
  let iterErr := res.2.2
  if commitErr then
    (db0, ⟨st.collectedCount, st.triggerNextIteration, st.batch, iterErr, true⟩)
  else
    let db1 := applyBatch db0 st.batch
    let db2 := incGCSize db1 (- st.collectedCount)
    let db3 := if st.triggerNextIteration then sendTrigger db2 else db2
    (db3, ⟨st.collectedCount, st.triggerNextIteration, st.batch, iterErr, false⟩)

/-- Events of the surrounding store: an admission adds chunks to the gc index
and increments the accountant through incGCSize; a pass runs one collector
iteration when a signal is pending. -/
inductive GCEvent where
  | admits (chunks : List Item)
  | pass (errAfter : Option ℕ) (commitErr : Bool)

/-- Run a sequence of store events, also accumulating the total number of
admitted items and the total collected count of passes whose commit
succeeded. -/
def runEvents (db : DB) (adm col : ℕ) : List GCEvent → DB × ℕ × ℕ
  | [] => (db, adm, col)
  | GCEvent.admits cs :: rest =>
      runEvents (incGCSize { db with gcIndex := db.gcIndex ++ cs } (cs.length : ℤ))
        (adm + cs.length) col rest
  | GCEvent.pass errAfter commitErr :: rest =>
      if db.collectGarbageTrigger = 0 then runEvents db adm col rest
      else
        let r := collectGarbage db errAfter commitErr
        runEvents r.1 adm
          (col + if commitErr then 0 else r.2.collectedCount.toNat) rest

/-- Fold a sequence of accountant increments (requestCollection calls made by
admissions) over incGCSize. -/
def applyIncs (db : DB) (ds : List ℤ) : DB := ds.foldl incGCSize db

/-! ### Basic facts about the trigger channel and the accountant -/

theorem sendTrigger_gcSize (db : DB) : (sendTrigger db).gcSize = db.gcSize := by
  simp only [sendTrigger]; split <;> rfl

theorem sendTrigger_capacity (db : DB) : (sendTrigger db).capacity = db.capacity := by
  simp only [sendTrigger]; split <;> rfl

theorem sendTrigger_gcIndex (db : DB) : (sendTrigger db).gcIndex = db.gcIndex := by
  simp only [sendTrigger]; split <;> rfl

theorem sendTrigger_pos (db : DB) : 1 ≤ (sendTrigger db).collectGarbageTrigger := by
  unfold sendTrigger
  by_cases h : 1 ≤ db.collectGarbageTrigger <;> simp [h]

theorem sendTrigger_trigger_le (db : DB) (h : db.collectGarbageTrigger ≤ 1) :
    (sendTrigger db).collectGarbageTrigger ≤ 1 := by
  unfold sendTrigger
  by_cases h1 : 1 ≤ db.collectGarbageTrigger <;> simp [h1] <;> omega

theorem sendTrigger_trigger_ge (db : DB) :
    db.collectGarbageTrigger ≤ (sendTrigger db).collectGarbageTrigger := by
  unfold sendTrigger
  by_cases h : 1 ≤ db.collectGarbageTrigger <;> simp [h]

theorem incGCSize_gcSize (db : DB) (x : ℤ) :
    (incGCSize db x).gcSize = db.gcSize + x := by
  simp only [incGCSize]; split
  · rw [sendTrigger_gcSize]
  · rfl

theorem incGCSize_capacity (db : DB) (x : ℤ) :
    (incGCSize db x).capacity = db.capacity := by
  simp only [incGCSize]; split
  · rw [sendTrigger_capacity]
  · rfl

theorem incGCSize_trigger_of_ge (db : DB) (x : ℤ)
    (h : (db.capacity : ℤ) ≤ db.gcSize + x) :
    1 ≤ (incGCSize db x).collectGarbageTrigger := by
  simp only [incGCSize]
  rw [if_pos h]
  exact sendTrigger_pos _

theorem incGCSize_trigger_le (db : DB) (x : ℤ) (h : db.collectGarbageTrigger ≤ 1) :
    (incGCSize db x).collectGarbageTrigger ≤ 1 := by
  simp only [incGCSize]; split
  · exact sendTrigger_trigger_le _ h
  · exact h

theorem incGCSize_trigger_ge (db : DB) (x : ℤ) :
    db.collectGarbageTrigger ≤ (incGCSize db x).collectGarbageTrigger := by
  simp only [incGCSize]; split
  · simpa using sendTrigger_trigger_ge
      { db with gcSize := db.gcSize + x }
  · exact le_refl _

theorem applyBatch_gcSize (db : DB) (b : Batch) : (applyBatch db b).gcSize = db.gcSize := rfl

theorem applyBatch_capacity (db : DB) (b : Batch) : (applyBatch db b).capacity = db.capacity := rfl

theorem applyBatch_trigger (db : DB) (b : Batch) :
    (applyBatch db b).collectGarbageTrigger = db.collectGarbageTrigger := rfl

/-! ### Claim C1: a failed batch commit leaves the accountant and the
eviction-order index untouched -/

/-- C1: if the atomic batch commit at the end of a collection pass fails,
the size accountant db.gcSize is not decremented and no item is removed from
the eviction-order index: the state after the pass carries the same gcSize
and the same gcIndex as before the pass, and the commit error is logged. -/
theorem commit_failure_leaves_accountant_and_index
    (db : DB) (errAfter : Option ℕ) (commitErr : Bool) (h : commitErr = true) :
    (collectGarbage db errAfter commitErr).1.gcSize = db.gcSize ∧
    (collectGarbage db errAfter commitErr).1.gcIndex = db.gcIndex ∧
    (collectGarbage db errAfter commitErr).2.commitErrLogged = true := by
  subst h
  simp [collectGarbage]

/-- Witness for C1 at a concrete state. -/
theorem commit_failure_leaves_accountant_and_index_witness :
    (collectGarbage ⟨100, 150, 1, false, List.replicate 150 0⟩ none true).1.gcSize = 150 ∧
    (collectGarbage ⟨100, 150, 1, false, List.replicate 150 0⟩ none true).1.gcIndex =
      List.replicate 150 0 ∧
    (collectGarbage ⟨100, 150, 1, false, List.replicate 150 0⟩ none true).2.commitErrLogged =
      true :=
  commit_failure_leaves_accountant_and_index ⟨100, 150, 1, false, List.replicate 150 0⟩ none
    true rfl

/-! ### Claim C3: behaviour of the per-item iteration step -/

/-- C3: for every visited entry, if the current accountant value minus the
collected count is at or below the target, the iteration stops without
queuing the deletions of the entry and without incrementing the collected
count; otherwise the deletions of the entry are queued into the batch for
every dependent index and for the eviction-order index, and the collected
count increases by one. -/
theorem visit_step_consumes_or_stops
    (gs tg : ℤ) (uc : Bool) (st : IterState) (item : Item) :
    (gs - st.collectedCount ≤ tg → visitItem gs tg uc st item = (st, true)) ∧
    (tg < gs - st.collectedCount →
      (visitItem gs tg uc st item).1.collectedCount = st.collectedCount + 1 ∧
      (visitItem gs tg uc st item).1.batch.gcDeletes = st.batch.gcDeletes ++ [item] ∧
      (visitItem gs tg uc st item).1.batch.pullDeletes = st.batch.pullDeletes ++ [item] ∧
      (uc = true →
        (visitItem gs tg uc st item).1.batch.retrievalCompositeDeletes =
          st.batch.retrievalCompositeDeletes ++ [item] ∧
        (visitItem gs tg uc st item).1.batch.retrievalDataDeletes =
          st.batch.retrievalDataDeletes ∧
        (visitItem gs tg uc st item).1.batch.retrievalAccessDeletes =
          st.batch.retrievalAccessDeletes) ∧
      (uc = false →
        (visitItem gs tg uc st item).1.batch.retrievalDataDeletes =
          st.batch.retrievalDataDeletes ++ [item] ∧
        (visitItem gs tg uc st item).1.batch.retrievalAccessDeletes =
          st.batch.retrievalAccessDeletes ++ [item] ∧
        (visitItem gs tg uc st item).1.batch.retrievalCompositeDeletes =
          st.batch.retrievalCompositeDeletes)) := by
  constructor
  · intro h
    simp [visitItem, h]
  · intro h
    have h' : ¬ (gs - st.collectedCount ≤ tg) := not_le.mpr h
    by_cases hcap : gcBatchSize ≤ st.collectedCount + 1 <;>
      cases uc <;> simp [visitItem, h', hcap]

/-- Witness for C3: the stopping branch at target reached, at a concrete
state. -/
theorem visit_step_consumes_or_stops_witness :
    visitItem 90 90 false ⟨Batch.empty, 0, false⟩ 7 = (⟨Batch.empty, 0, false⟩, true) :=
  (visit_step_consumes_or_stops 90 90 false ⟨Batch.empty, 0, false⟩ 7).1 (by decide)

/-! ### Claim C10: a pass with a failed commit never re-arms the trigger -/

/-- C10: for every pass that hits the per-pass cap but whose batch commit
fails, the pass itself does not re-arm the trigger signal: re-arming happens
only in the commit-success branch, so the pass leaves only the drained
channel behind (the consumed signal is not replaced). -/
theorem failed_commit_does_not_rearm
    (db : DB) (errAfter : Option ℕ)
    (_hcap : (collectGarbage db errAfter true).2.triggerNextIteration = true) :
    (collectGarbage db errAfter true).1.collectGarbageTrigger =
      db.collectGarbageTrigger - 1 := by
  simp [collectGarbage]

set_option maxRecDepth 1000000 in
/-- Witness for C10: a pass over 2000 items with capacity 0 hits the cap of
1000; with the commit failing, the pending signal count drops from one to
zero. -/
theorem failed_commit_does_not_rearm_witness :
    (collectGarbage ⟨0, 2000, 1, false, List.replicate 2000 0⟩ none
      true).1.collectGarbageTrigger = 1 - 1 :=
  failed_commit_does_not_rearm ⟨0, 2000, 1, false, List.replicate 2000 0⟩ none (by decide)

/-! ### Structural lemmas about the gcIndex iteration -/

theorem visitItem_fst_collectedCount_cases (gs tg : ℤ) (uc : Bool)
    (st : IterState) (item : Item) :
    (visitItem gs tg uc st item).1.collectedCount = st.collectedCount ∧
        (visitItem gs tg uc st item).2 = true ∧
        (visitItem gs tg uc st item).1 = st ∨
      (visitItem gs tg uc st item).1.collectedCount = st.collectedCount + 1 ∧
        tg < gs - st.collectedCount := by
  by_cases h : gs - st.collectedCount ≤ tg
  · left; simp [visitItem, h]
  · right
    refine ⟨?_, not_le.mp h⟩
    by_cases hcap : gcBatchSize ≤ st.collectedCount + 1 <;> simp [visitItem, h, hcap]

theorem runIterE_collected_mono (gs tg : ℤ) (uc : Bool) :
    ∀ (l : List Item) (st : IterState) (fuel : Option ℕ),
      st.collectedCount ≤ (runIterE gs tg uc st l fuel).1.collectedCount := by
  intro l
  induction l with
  | nil => intro st fuel; simp [runIterE]
  | cons i rest ih =>
    intro st fuel
    rw [runIterE]
    split
    · simp
    · rcases visitItem_fst_collectedCount_cases gs tg uc st i with h | h
      · split
        · rw [h.2.2]
        · rw [h.2.2]
          exact ih st _
      · split
        · dsimp only; omega
        · calc st.collectedCount ≤ (visitItem gs tg uc st i).1.collectedCount := by omega
            _ ≤ _ := ih _ _

theorem runIterE_collected_le_max (gs tg : ℤ) (uc : Bool) :
    ∀ (l : List Item) (st : IterState) (fuel : Option ℕ),
      (runIterE gs tg uc st l fuel).1.collectedCount ≤
        max st.collectedCount (gs - tg) := by
  intro l
  induction l with
  | nil => intro st fuel; simp [runIterE]
  | cons i rest ih =>
    intro st fuel
    rw [runIterE]
    split
    · simp
    · rcases visitItem_fst_collectedCount_cases gs tg uc st i with h | h
      · split
        · rw [h.2.2]; simp
        · rw [h.2.2]
          exact ih st _
      · have hv : (visitItem gs tg uc st i).1.collectedCount ≤ gs - tg := by omega
        split
        · dsimp only; omega
        · calc (runIterE gs tg uc (visitItem gs tg uc st i).1 rest _).1.collectedCount
              ≤ max (visitItem gs tg uc st i).1.collectedCount (gs - tg) := ih _ _
            _ ≤ max st.collectedCount (gs - tg) := by omega

theorem visitItem_cases (gs tg : ℤ) (uc : Bool) (st : IterState) (item : Item) :
    (gs - st.collectedCount ≤ tg ∧ visitItem gs tg uc st item = (st, true)) ∨
    (tg < gs - st.collectedCount ∧ gcBatchSize ≤ st.collectedCount + 1 ∧
      (visitItem gs tg uc st item).1.collectedCount = st.collectedCount + 1 ∧
      (visitItem gs tg uc st item).1.triggerNextIteration = true ∧
      (visitItem gs tg uc st item).2 = true) ∨
    (tg < gs - st.collectedCount ∧ st.collectedCount + 1 < gcBatchSize ∧
      (visitItem gs tg uc st item).1.collectedCount = st.collectedCount + 1 ∧
      (visitItem gs tg uc st item).1.triggerNextIteration = st.triggerNextIteration ∧
      (visitItem gs tg uc st item).2 = false) := by
  by_cases h : gs - st.collectedCount ≤ tg
  · left
    exact ⟨h, by simp [visitItem, h]⟩
  · right
    by_cases hcap : gcBatchSize ≤ st.collectedCount + 1
    · left
      refine ⟨not_le.mp h, hcap, ?_, ?_, ?_⟩ <;> simp [visitItem, h, hcap]
    · right
      refine ⟨not_le.mp h, not_le.mp hcap, ?_, ?_, ?_⟩ <;> simp [visitItem, h, hcap]

theorem runIterE_cap (gs tg : ℤ) (uc : Bool) :
    ∀ (l : List Item) (st : IterState) (fuel : Option ℕ),
      st.collectedCount < gcBatchSize → st.triggerNextIteration = false →
      (runIterE gs tg uc st l fuel).1.collectedCount ≤ gcBatchSize ∧
      ((runIterE gs tg uc st l fuel).1.triggerNextIteration = true ↔
        (runIterE gs tg uc st l fuel).1.collectedCount = gcBatchSize) := by
  intro l
  induction l with
  | nil =>
    intro st fuel h1 h2
    simp only [runIterE]
    rw [h2]
    exact ⟨by omega, by simp; omega⟩
  | cons i rest ih =>
    intro st fuel h1 h2
    rw [runIterE]
    by_cases hf : fuel = some 0
    · rw [if_pos hf]
      dsimp only
      rw [h2]
      exact ⟨by omega, by simp; omega⟩
    · rw [if_neg hf]
      rcases visitItem_cases gs tg uc st i with hA | hB | hC
      · rw [hA.2, if_pos rfl]
        dsimp only
        rw [h2]
        exact ⟨by omega, by simp; omega⟩
      · rw [if_pos hB.2.2.2.2]
        dsimp only
        rw [hB.2.2.1, hB.2.2.2.1]
        exact ⟨by omega, fun _ => by omega, fun _ => rfl⟩
      · rw [if_neg (by simp [hC.2.2.2.2])]
        exact ih (visitItem gs tg uc st i).1 _
          (by rw [hC.2.2.1]; exact hC.2.1)
          (by rw [hC.2.2.2.1]; exact h2)

theorem runIterE_lower (gs tg : ℤ) (uc : Bool) :
    ∀ (l : List Item) (st : IterState),
      gs - tg ≤ st.collectedCount + l.length →
      min (gs - tg) gcBatchSize ≤ (runIterE gs tg uc st l none).1.collectedCount := by
  intro l
  induction l with
  | nil =>
    intro st h
    simp only [runIterE, List.length_nil] at *
    omega
  | cons i rest ih =>
    intro st h
    rw [runIterE, if_neg (by simp)]
    rcases visitItem_cases gs tg uc st i with hA | hB | hC
    · rw [hA.2, if_pos rfl]
      dsimp only
      omega
    · rw [if_pos hB.2.2.2.2]
      dsimp only
      rw [hB.2.2.1]
      omega
    · rw [if_neg (by simp [hC.2.2.2.2])]
      have hmap : (Option.map (fun k => k - 1) (none : Option ℕ)) = none := rfl
      rw [hmap]
      refine ih (visitItem gs tg uc st i).1 ?_
      rw [hC.2.2.1]
      simp only [List.length_cons] at h
      omega

theorem runIterE_err_take (gs tg : ℤ) (uc : Bool) :
    ∀ (l : List Item) (k : ℕ) (st : IterState),
      (runIterE gs tg uc st l (some k)).2.2 = true →
      (runIterE gs tg uc st l (some k)).1 = (runIterE gs tg uc st (l.take k) none).1 := by
  intro l
  induction l with
  | nil =>
    intro k st h
    simp [runIterE] at h
  | cons i rest ih =>
    intro k st h
    match k with
    | 0 => simp [runIterE]
    | k + 1 =>
      have hne1 : ¬((some (k + 1) : Option ℕ) = some 0) := by simp
      rw [runIterE, if_neg hne1] at h
      rw [show (i :: rest).take (k + 1) = i :: rest.take k from rfl]
      rw [runIterE, if_neg hne1]
      rw [runIterE, if_neg (show ¬((none : Option ℕ) = some 0) by simp)]
      rcases visitItem_cases gs tg uc st i with hA | hB | hC
      · rw [hA.2, if_pos rfl] at h
        simp at h
      · rw [if_pos hB.2.2.2.2] at h
        simp at h
      · rw [if_neg (by simp [hC.2.2.2.2])] at h
        rw [if_neg (by simp [hC.2.2.2.2]), if_neg (by simp [hC.2.2.2.2])]
        rw [show Option.map (fun j => j - 1) (some (k + 1)) = some k from rfl] at h
        rw [show Option.map (fun j => j - 1) (some (k + 1)) = some k from rfl]
        rw [show Option.map (fun j => j - 1) (none : Option ℕ) = none from rfl]
        exact ih k _ h

/-! ### Facts about one collection pass -/

/-- Final callback state of the iteration phase of one pass. -/
def passIter (db : DB) (errAfter : Option ℕ) : IterState :=
  (runIterE db.gcSize (gcTarget db.capacity) db.useRetrievalCompositeIndex
    ⟨Batch.empty, 0, false⟩ db.gcIndex errAfter).1

theorem collectGarbage_outcome (db : DB) (errAfter : Option ℕ) (commitErr : Bool) :
    (collectGarbage db errAfter commitErr).2.collectedCount =
      (passIter db errAfter).collectedCount ∧
    (collectGarbage db errAfter commitErr).2.triggerNextIteration =
      (passIter db errAfter).triggerNextIteration ∧
    (collectGarbage db errAfter commitErr).2.batch = (passIter db errAfter).batch := by
  cases commitErr <;> simp [collectGarbage, passIter]

theorem collectGarbage_fail_state (db : DB) (errAfter : Option ℕ) :
    (collectGarbage db errAfter true).1 =
      { db with collectGarbageTrigger := db.collectGarbageTrigger - 1 } := by
  simp [collectGarbage]

theorem collectGarbage_iterErrLogged (db : DB) (errAfter : Option ℕ) (commitErr : Bool) :
    (collectGarbage db errAfter commitErr).2.iterErrLogged =
      (runIterE db.gcSize (gcTarget db.capacity) db.useRetrievalCompositeIndex
        ⟨Batch.empty, 0, false⟩ db.gcIndex errAfter).2.2 := by
  cases commitErr <;> simp [collectGarbage]

theorem collectGarbage_success_gcSize (db : DB) (errAfter : Option ℕ) :
    (collectGarbage db errAfter false).1.gcSize =
      db.gcSize - (passIter db errAfter).collectedCount := by
  simp only [collectGarbage, passIter]
  rw [if_neg (show ¬(false = true) by simp)]
  dsimp only
  split
  · rw [sendTrigger_gcSize, incGCSize_gcSize, applyBatch_gcSize]
    dsimp only
    ring
  · rw [incGCSize_gcSize, applyBatch_gcSize]
    dsimp only
    ring

theorem collectGarbage_rearm (db : DB) (errAfter : Option ℕ)
    (h : (passIter db errAfter).triggerNextIteration = true) :
    1 ≤ (collectGarbage db errAfter false).1.collectGarbageTrigger := by
  simp only [collectGarbage]
  rw [if_neg (by simp)]
  simp only [passIter] at h
  rw [if_pos h]
  exact sendTrigger_pos _

theorem passIter_collected_nonneg (db : DB) (errAfter : Option ℕ) :
    0 ≤ (passIter db errAfter).collectedCount :=
  runIterE_collected_mono db.gcSize (gcTarget db.capacity) db.useRetrievalCompositeIndex
    db.gcIndex ⟨Batch.empty, 0, false⟩ errAfter

theorem passIter_collected_le (db : DB) (errAfter : Option ℕ) :
    (passIter db errAfter).collectedCount ≤ max 0 (db.gcSize - gcTarget db.capacity) :=
  runIterE_collected_le_max db.gcSize (gcTarget db.capacity) db.useRetrievalCompositeIndex
    db.gcIndex ⟨Batch.empty, 0, false⟩ errAfter

theorem gcBatchSize_pos : (0 : ℤ) < gcBatchSize := by decide

theorem passIter_collected_le_cap (db : DB) (errAfter : Option ℕ) :
    (passIter db errAfter).collectedCount ≤ gcBatchSize :=
  (runIterE_cap db.gcSize (gcTarget db.capacity) db.useRetrievalCompositeIndex
    db.gcIndex ⟨Batch.empty, 0, false⟩ errAfter gcBatchSize_pos rfl).1

theorem passIter_trigger_iff (db : DB) (errAfter : Option ℕ) :
    ((passIter db errAfter).triggerNextIteration = true ↔
      (passIter db errAfter).collectedCount = gcBatchSize) :=
  (runIterE_cap db.gcSize (gcTarget db.capacity) db.useRetrievalCompositeIndex
    db.gcIndex ⟨Batch.empty, 0, false⟩ errAfter gcBatchSize_pos rfl).2

theorem gcTarget_nonneg (capacity : ℕ) : 0 ≤ gcTarget capacity := by
  simp only [gcTarget]
  exact Int.natCast_nonneg _

/-! ### Claim C4: behaviour of a pass that hits the batch cap -/

/-- C4: for every pass in which the collected count reaches the per-pass cap
gcBatchSize = 1000, iteration stops at exactly that count and the need for
another pass is recorded in triggerNextIteration; then, if the batch commit
succeeds, the accountant is decremented by the collected count and the
trigger is re-armed with a non-blocking send, and if the commit fails the
accountant is unchanged. -/
theorem cap_hit_pass_behavior (db : DB) (errAfter : Option ℕ) (commitErr : Bool)
    (hcap : (collectGarbage db errAfter commitErr).2.triggerNextIteration = true) :
    (collectGarbage db errAfter commitErr).2.collectedCount = gcBatchSize ∧
    (commitErr = false →
      (collectGarbage db errAfter commitErr).1.gcSize = db.gcSize - gcBatchSize ∧
      1 ≤ (collectGarbage db errAfter commitErr).1.collectGarbageTrigger) ∧
    (commitErr = true →
      (collectGarbage db errAfter commitErr).1.gcSize = db.gcSize) := by
  have hout := collectGarbage_outcome db errAfter commitErr
  have htrig : (passIter db errAfter).triggerNextIteration = true := by
    rw [hout.2.1] at hcap; exact hcap
  have hcol : (passIter db errAfter).collectedCount = gcBatchSize :=
    (passIter_trigger_iff db errAfter).mp htrig
  refine ⟨by rw [hout.1, hcol], fun hc => ?_, fun hc => ?_⟩
  · subst hc
    constructor
    · rw [collectGarbage_success_gcSize, hcol]
    · exact collectGarbage_rearm db errAfter htrig
  · subst hc
    rw [collectGarbage_fail_state]

set_option maxRecDepth 1000000 in
/-- Witness for C4: with capacity 0 and 2000 indexed items, the pass stops
at exactly 1000 collected items; on commit success the accountant drops from
2000 to 1000 and the trigger is pending again. -/
theorem cap_hit_pass_behavior_witness :
    (collectGarbage ⟨0, 2000, 1, false, List.replicate 2000 0⟩ none
        false).2.collectedCount = gcBatchSize ∧
    (false = false →
      (collectGarbage ⟨0, 2000, 1, false, List.replicate 2000 0⟩ none
          false).1.gcSize = 2000 - gcBatchSize ∧
      1 ≤ (collectGarbage ⟨0, 2000, 1, false, List.replicate 2000 0⟩ none
          false).1.collectGarbageTrigger) ∧
    (false = true →
      (collectGarbage ⟨0, 2000, 1, false, List.replicate 2000 0⟩ none
          false).1.gcSize = 2000) :=
  cap_hit_pass_behavior ⟨0, 2000, 1, false, List.replicate 2000 0⟩ none false (by decide)

/-! ### Claim C9: a successful pass that is still over capacity re-arms the
trigger through incGCSize -/

/-- C9: because the post-commit decrement goes through incGCSize, a
successful pass whose resulting accountant value still reaches capacity
leaves a pending trigger signal, whether or not the per-pass cap was hit. -/
theorem successful_pass_retriggers_when_over_capacity (db : DB) (errAfter : Option ℕ)
    (h : (db.capacity : ℤ) ≤ db.gcSize - (collectGarbage db errAfter false).2.collectedCount) :
    1 ≤ (collectGarbage db errAfter false).1.collectGarbageTrigger := by
  rw [(collectGarbage_outcome db errAfter false).1] at h
  simp only [collectGarbage]
  rw [if_neg (show ¬(false = true) by simp)]
  dsimp only
  split
  · exact sendTrigger_pos _
  · apply incGCSize_trigger_of_ge
    rw [applyBatch_capacity, applyBatch_gcSize]
    simp only [passIter] at h
    dsimp only
    omega

/-- Witness for C9: with capacity 100 but only 50 indexed items against an
accountant of 2000, the successful pass collects 50, leaves 1950 on the
accountant, and the decrement through incGCSize re-arms the trigger even
though the per-pass cap was not hit. -/
theorem successful_pass_retriggers_when_over_capacity_witness :
    1 ≤ (collectGarbage ⟨100, 2000, 1, false, List.replicate 50 0⟩ none
      false).1.collectGarbageTrigger :=
  successful_pass_retriggers_when_over_capacity ⟨100, 2000, 1, false, List.replicate 50 0⟩
    none (by decide)

/-! ### Claim C2: a successful pass reaches the target or hits the cap -/

set_option maxRecDepth 1000000 in
/-- C2: after any single collection pass whose batch commit succeeds (run on
an index holding at least the accounted number of items and with no iterator
error), either the accountant is at most the collection target, or the pass
collected exactly gcBatchSize items and re-armed the trigger; and in the
concrete scenario capacity=100, accountant=150, the pass collects exactly 60
items, leaves the accountant at target 90, and does not re-arm the trigger. -/
theorem successful_pass_reaches_target_or_cap :
    (∀ db : DB, db.gcSize ≤ (db.gcIndex.length : ℤ) →
      (collectGarbage db none false).1.gcSize ≤ gcTarget db.capacity ∨
      ((collectGarbage db none false).2.collectedCount = gcBatchSize ∧
        1 ≤ (collectGarbage db none false).1.collectGarbageTrigger)) ∧
    (gcTarget 100 = 90 ∧
      (collectGarbage ⟨100, 150, 1, false, List.replicate 150 0⟩ none
          false).2.collectedCount = 60 ∧
      (collectGarbage ⟨100, 150, 1, false, List.replicate 150 0⟩ none
          false).1.gcSize = 90 ∧
      (collectGarbage ⟨100, 150, 1, false, List.replicate 150 0⟩ none
          false).1.collectGarbageTrigger = 0) := by
  constructor
  · intro db hlen
    have htg := gcTarget_nonneg db.capacity
    have hcap := passIter_collected_le_cap db none
    by_cases hc : db.gcSize - (passIter db none).collectedCount ≤ gcTarget db.capacity
    · left
      rw [collectGarbage_success_gcSize]
      exact hc
    · right
      have hlow0 := runIterE_lower db.gcSize (gcTarget db.capacity)
        db.useRetrievalCompositeIndex db.gcIndex ⟨Batch.empty, 0, false⟩
        (by dsimp only; omega)
      have hlow : min (db.gcSize - gcTarget db.capacity) gcBatchSize ≤
          (passIter db none).collectedCount := hlow0
      have hceq : (passIter db none).collectedCount = gcBatchSize := by
        rcases min_cases (db.gcSize - gcTarget db.capacity) gcBatchSize with hm | hm <;>
          omega
      refine ⟨by rw [(collectGarbage_outcome db none false).1, hceq], ?_⟩
      exact collectGarbage_rearm db none ((passIter_trigger_iff db none).mpr hceq)
  · refine ⟨by decide, by decide, by decide, by decide⟩

/-- Witness for C2: the universal part applied to a concrete state below
capacity, where the left disjunct holds. -/
theorem successful_pass_reaches_target_or_cap_witness :
    (collectGarbage ⟨10, 5, 1, false, List.replicate 5 0⟩ none false).1.gcSize ≤
      gcTarget 10 ∨
    ((collectGarbage ⟨10, 5, 1, false, List.replicate 5 0⟩ none
        false).2.collectedCount = gcBatchSize ∧
      1 ≤ (collectGarbage ⟨10, 5, 1, false, List.replicate 5 0⟩ none
        false).1.collectGarbageTrigger) :=
  successful_pass_reaches_target_or_cap.1 ⟨10, 5, 1, false, List.replicate 5 0⟩ (by decide)

/-! ### Claim C6: trigger requests coalesce into a single pending signal -/

theorem applyIncs_trigger_one : ∀ (l : List ℤ) (db : DB),
    db.collectGarbageTrigger = 1 → (applyIncs db l).collectGarbageTrigger = 1 := by
  intro l
  induction l with
  | nil => intro db h; exact h
  | cons d rest ih =>
    intro db h
    have h1 : (incGCSize db d).collectGarbageTrigger = 1 := by
      have ha := incGCSize_trigger_ge db d
      have hb := incGCSize_trigger_le db d (by omega)
      omega
    exact ih _ h1

/-- C6: requesting collection is idempotent and never blocks.  For every
nonempty sequence of accountant increments whose running results all reach
capacity, performed before the collector consumes the signal, exactly one
trigger signal is pending afterwards: sends onto the full single-slot
channel are dropped. -/
theorem requestCollection_coalesces (db : DB) (ds : List ℤ)
    (h0 : db.collectGarbageTrigger ≤ 1) (hne : ds ≠ [])
    (hcap : ∀ i, i < ds.length → (db.capacity : ℤ) ≤ db.gcSize + (ds.take (i + 1)).sum) :
    (applyIncs db ds).collectGarbageTrigger = 1 := by
  match ds, hne with
  | d :: rest, _ =>
    have h1 : (db.capacity : ℤ) ≤ db.gcSize + d := by
      have hi := hcap 0 (by simp)
      simpa using hi
    have h2 : (incGCSize db d).collectGarbageTrigger = 1 := by
      have ha := incGCSize_trigger_of_ge db d h1
      have hb := incGCSize_trigger_le db d h0
      omega
    exact applyIncs_trigger_one rest _ h2

/-- Witness for C6: three increments all landing at or above capacity leave
exactly one pending signal. -/
theorem requestCollection_coalesces_witness :
    (applyIncs ⟨100, 0, 0, false, []⟩ [150, 1, 2]).collectGarbageTrigger = 1 :=
  requestCollection_coalesces ⟨100, 0, 0, false, []⟩ [150, 1, 2] (by decide) (by decide)
    (by decide)

/-! ### Claim C7: an iteration error does not prevent the commit -/

/-- C7: if the index iteration fails with an error mid-pass, the error is
logged and the pass still commits exactly the deletions queued before the
failure: it hands the commit the same batch and collected count as an
error-free pass over the prefix of the index visited before the error, the
commit is attempted either way, and on success the accountant is decremented
by that collected count while on commit failure it is unchanged. -/
theorem iteration_error_still_commits (db : DB) (k : ℕ) (commitErr : Bool)
    (herr : (collectGarbage db (some k) commitErr).2.iterErrLogged = true) :
    (collectGarbage db (some k) commitErr).2.batch =
      (collectGarbage { db with gcIndex := db.gcIndex.take k } none commitErr).2.batch ∧
    (collectGarbage db (some k) commitErr).2.collectedCount =
      (collectGarbage { db with gcIndex := db.gcIndex.take k } none
        commitErr).2.collectedCount ∧
    (commitErr = false →
      (collectGarbage db (some k) commitErr).1.gcSize =
        db.gcSize - (collectGarbage db (some k) commitErr).2.collectedCount) ∧
    (commitErr = true →
      (collectGarbage db (some k) commitErr).1.gcSize = db.gcSize) := by
  rw [collectGarbage_iterErrLogged db (some k) commitErr] at herr
  have hstate := runIterE_err_take db.gcSize (gcTarget db.capacity)
    db.useRetrievalCompositeIndex db.gcIndex k ⟨Batch.empty, 0, false⟩ herr
  have hpass : passIter db (some k) = passIter { db with gcIndex := db.gcIndex.take k } none := by
    simp only [passIter]
    exact hstate
  have hout1 := collectGarbage_outcome db (some k) commitErr
  have hout2 := collectGarbage_outcome { db with gcIndex := db.gcIndex.take k } none commitErr
  refine ⟨?_, ?_, fun hc => ?_, fun hc => ?_⟩
  · rw [hout1.2.2, hout2.2.2, hpass]
  · rw [hout1.1, hout2.1, hpass]
  · subst hc
    rw [collectGarbage_success_gcSize, hout1.1]
  · subst hc
    rw [collectGarbage_fail_state]

set_option maxRecDepth 1000000 in
/-- Witness for C7: the iterator fails after yielding 10 of 150 items, the
error is logged, and the pass commits the 10 queued deletions. -/
theorem iteration_error_still_commits_witness :
    (collectGarbage ⟨100, 150, 1, false, List.replicate 150 0⟩ (some 10) false).2.batch =
      (collectGarbage ⟨100, 150, 1, false,
        (List.replicate 150 0).take 10⟩ none false).2.batch ∧
    (collectGarbage ⟨100, 150, 1, false, List.replicate 150 0⟩ (some 10)
        false).2.collectedCount =
      (collectGarbage ⟨100, 150, 1, false,
        (List.replicate 150 0).take 10⟩ none false).2.collectedCount ∧
    (false = false →
      (collectGarbage ⟨100, 150, 1, false, List.replicate 150 0⟩ (some 10)
          false).1.gcSize =
        150 - (collectGarbage ⟨100, 150, 1, false, List.replicate 150 0⟩ (some 10)
          false).2.collectedCount) ∧
    (false = true →
      (collectGarbage ⟨100, 150, 1, false, List.replicate 150 0⟩ (some 10)
          false).1.gcSize = 150) :=
  iteration_error_still_commits ⟨100, 150, 1, false, List.replicate 150 0⟩ 10 false (by decide)

/-! ### Claim C8: the accountant equals admissions minus committed evictions -/

theorem runEvents_invariant : ∀ (events : List GCEvent) (db : DB) (adm col : ℕ),
    0 ≤ db.gcSize → db.gcSize = (adm : ℤ) - (col : ℤ) →
    0 ≤ (runEvents db adm col events).1.gcSize ∧
    (runEvents db adm col events).1.gcSize =
      ((runEvents db adm col events).2.1 : ℤ) - ((runEvents db adm col events).2.2 : ℤ) := by
  intro events
  induction events with
  | nil =>
    intro db adm col h0 h1
    exact ⟨h0, h1⟩
  | cons e rest ih =>
    intro db adm col h0 h1
    cases e with
    | admits cs =>
      simp only [runEvents]
      have hg : (incGCSize { db with gcIndex := db.gcIndex ++ cs } (cs.length : ℤ)).gcSize =
          db.gcSize + (cs.length : ℤ) := by
        rw [incGCSize_gcSize]
      apply ih
      · rw [hg]; omega
      · rw [hg, h1]; push_cast; ring
    | pass eA cErr =>
      simp only [runEvents]
      split
      · exact ih _ _ _ h0 h1
      · cases cErr with
        | true =>
          have hfail := collectGarbage_fail_state db eA
          apply ih
          · rw [hfail]; exact h0
          · rw [hfail]; simpa using h1
        | false =>
          have hg := collectGarbage_success_gcSize db eA
          have hc0 := passIter_collected_nonneg db eA
          have hcle : (passIter db eA).collectedCount ≤ db.gcSize := by
            have hle := passIter_collected_le db eA
            have htg := gcTarget_nonneg db.capacity
            have hmax : max 0 (db.gcSize - gcTarget db.capacity) ≤ db.gcSize :=
              max_le h0 (by omega)
            omega
          apply ih
          · rw [hg]; omega
          · rw [hg, (collectGarbage_outcome db eA false).1]
            rw [h1]
            push_cast [Int.toNat_of_nonneg hc0]
            ring
    
/-- C8: for every sequence of admissions and collection passes starting from
the empty store, the size accountant stays nonnegative and equals the number
of items ever admitted minus the total collected count of the passes whose
batch commit succeeded. -/
theorem accountant_invariant (capacity : ℕ) (uc : Bool) (events : List GCEvent) :
    (runEvents ⟨capacity, 0, 0, uc, []⟩ 0 0 events).1.gcSize =
      ((runEvents ⟨capacity, 0, 0, uc, []⟩ 0 0 events).2.1 : ℤ) -
        ((runEvents ⟨capacity, 0, 0, uc, []⟩ 0 0 events).2.2 : ℤ) ∧
    0 ≤ (runEvents ⟨capacity, 0, 0, uc, []⟩ 0 0 events).1.gcSize := by
  have h := runEvents_invariant events ⟨capacity, 0, 0, uc, []⟩ 0 0 (by simp) (by simp)
  exact ⟨h.2, h.1⟩

/-! ### Claim C5: the float-based target against the exact floor -/

theorem log2fuel_spec : ∀ (fuel n : ℕ), 1 ≤ n → n < 2 ^ fuel →
    2 ^ log2fuel fuel n ≤ n ∧ n < 2 ^ (log2fuel fuel n + 1) := by
  intro fuel
  induction fuel with
  | zero =>
    intro n h1 h2
    rw [pow_zero] at h2
    omega
  | succ fuel ih =>
    intro n h1 h2
    rw [log2fuel]
    split
    · have hn : n = 1 := by omega
      subst hn
      norm_num
    · have hn2 : 2 ≤ n := by omega
      have hm1 : 1 ≤ n / 2 := by omega
      have hm2 : n / 2 < 2 ^ fuel := by
        have hp : 2 ^ (fuel + 1) = 2 * 2 ^ fuel := by rw [pow_succ]; ring
        omega
      obtain ⟨ha, hb⟩ := ih (n / 2) hm1 hm2
      constructor
      · rw [pow_succ]
        have h3 : 2 ^ log2fuel fuel (n / 2) * 2 ≤ n / 2 * 2 := Nat.mul_le_mul_right _ ha
        omega
      · rw [pow_succ]
        have h3 : (n / 2 + 1) * 2 ≤ 2 ^ (log2fuel fuel (n / 2) + 1) * 2 :=
          Nat.mul_le_mul_right _ hb
        omega

theorem roundToGrid_cases (n shift : ℕ) :
    roundToGrid n shift = n / 2 ^ shift ∨
    (roundToGrid n shift = n / 2 ^ shift + 1 ∧ 2 ^ (shift - 1) ≤ n % 2 ^ shift) := by
  by_cases h0 : shift = 0
  · left; simp [roundToGrid, h0]
  · unfold roundToGrid
    rw [if_neg h0]
    split
    · left; rfl
    · split
      · right; exact ⟨rfl, by omega⟩
      · split
        · left; rfl
        · right; exact ⟨rfl, by omega⟩

theorem roundToGrid_ge (n shift : ℕ) : n / 2 ^ shift ≤ roundToGrid n shift := by
  rcases roundToGrid_cases n shift with h | ⟨h, _⟩ <;> omega

theorem roundToGrid_mul_le (n shift : ℕ) :
    2 * (roundToGrid n shift * 2 ^ shift) ≤ 2 * n + 2 ^ shift := by
  have hpos : 0 < 2 ^ shift := Nat.two_pow_pos shift
  rcases roundToGrid_cases n shift with h | ⟨h, hr⟩
  · rw [h]
    have h1 : n / 2 ^ shift * 2 ^ shift ≤ n := Nat.div_mul_le_self n _
    omega
  · rw [h]
    by_cases h0 : shift = 0
    · subst h0
      exact absurd hr (by omega)
    · have h2 : 2 ^ shift * (n / 2 ^ shift) + n % 2 ^ shift = n := Nat.div_add_mod n _
      have h3 : 2 ^ shift = 2 * 2 ^ (shift - 1) := by
        obtain ⟨s, rfl⟩ : ∃ s, shift = s + 1 := ⟨shift - 1, by omega⟩
        rw [pow_succ, Nat.add_sub_cancel]
        ring
      have h4 : (n / 2 ^ shift + 1) * 2 ^ shift = n / 2 ^ shift * 2 ^ shift + 2 ^ shift := by
        ring
      have h5 : 2 ^ shift * (n / 2 ^ shift) = n / 2 ^ shift * 2 ^ shift := by ring
      omega

theorem floatOfNat_eq_self (c : ℕ) (hc : c ≤ 2 ^ 52) : floatOfNat c = c := by
  have he : log2fuel 256 c ≤ 52 := by
    by_cases hc0 : c = 0
    · subst hc0; decide
    · have hspec := log2fuel_spec 256 c (by omega) (lt_of_le_of_lt hc (by norm_num))
      by_contra hgt
      have h53 : (2 : ℕ) ^ 53 ≤ 2 ^ log2fuel 256 c :=
        Nat.pow_le_pow_right (by norm_num) (by omega)
      have h1 := le_trans h53 hspec.1
      have h2 := le_trans h1 hc
      norm_num at h2
  simp only [floatOfNat]
  rw [if_pos he]

/-- C5 (amended): for every capacity up to 2^50, the float-based gcTarget
equals the integer part of capacity times 9/10.  Beyond that range the
binary64 rounding in Go float64 arithmetic can differ from the exact floor,
as the counterexample shows. -/
theorem gcTarget_eq_floor_of_le (capacity : ℕ) (hcap : capacity ≤ 2 ^ 50) :
    gcTarget capacity = ((9 * capacity / 10 : ℕ) : ℤ) := by
  by_cases hc0 : capacity = 0
  · subst hc0; decide
  have hc1 : 1 ≤ capacity := by omega
  have hfl : floatOfNat capacity = capacity :=
    floatOfNat_eq_self capacity (le_trans hcap (by norm_num))
  have hnat : roundToGrid (capacity * gcTargetRatioSig)
      (log2fuel 256 (capacity * gcTargetRatioSig) - 52) *
        2 ^ (log2fuel 256 (capacity * gcTargetRatioSig) - 52) / 2 ^ 53 =
      9 * capacity / 10 := by
    set v := capacity * gcTargetRatioSig with hv
    set L := log2fuel 256 v with hL
    set s := L - 52 with hs
    have hM_lo : (2 : ℕ) ^ 52 ≤ gcTargetRatioSig := by norm_num [gcTargetRatioSig]
    have hM_hi : gcTargetRatioSig < 2 ^ 53 := by norm_num [gcTargetRatioSig]
    have hv_lo : 2 ^ 52 ≤ v := by
      refine le_trans hM_lo ?_
      rw [hv]
      exact Nat.le_mul_of_pos_left _ (by omega)
    have hv_hi : v < 2 ^ 103 := by
      rw [hv]
      calc capacity * gcTargetRatioSig ≤ 2 ^ 50 * gcTargetRatioSig :=
            Nat.mul_le_mul_right _ hcap
        _ < 2 ^ 50 * 2 ^ 53 := mul_lt_mul_of_pos_left hM_hi (by positivity)
        _ = 2 ^ 103 := by norm_num
    have hspec := log2fuel_spec 256 v (by omega) (lt_trans hv_hi (by norm_num))
    rw [← hL] at hspec
    have hL_lo : 52 ≤ L := by
      by_contra hlt
      have hp : (2 : ℕ) ^ (L + 1) ≤ 2 ^ 52 := Nat.pow_le_pow_right (by norm_num) (by omega)
      omega
    have hL_hi : L ≤ 102 := by
      by_contra hgt
      have hp : (2 : ℕ) ^ 103 ≤ 2 ^ L := Nat.pow_le_pow_right (by norm_num) (by omega)
      omega
    have hS_le : (2 : ℕ) ^ s ≤ 2 ^ 50 := Nat.pow_le_pow_right (by norm_num) (by omega)
    have hS_pos : 0 < (2 : ℕ) ^ s := Nat.two_pow_pos s
    have hsplit : (2 : ℕ) ^ (53 - s) * 2 ^ s = 2 ^ 53 := by
      rw [← pow_add]
      congr 1
      omega
    have h10M : 10 * gcTargetRatioSig = 9 * 2 ^ 53 + 2 := by norm_num [gcTargetRatioSig]
    have h10v : 10 * v = 9 * capacity * 2 ^ 53 + 2 * capacity := by
      rw [hv]
      calc 10 * (capacity * gcTargetRatioSig) = capacity * (10 * gcTargetRatioSig) := by
            ring
        _ = capacity * (9 * 2 ^ 53 + 2) := by rw [h10M]
        _ = 9 * capacity * 2 ^ 53 + 2 * capacity := by ring
    have hdm := Nat.div_add_mod (9 * capacity) 10
    have hfm : 9 * capacity % 10 < 10 := Nat.mod_lt _ (by norm_num)
    have hA : 9 * capacity / 10 * 2 ^ 53 ≤ v := by
      have h1 : 10 * (9 * capacity / 10 * 2 ^ 53) ≤ 10 * v := by
        have e53 : (2 : ℕ) ^ 53 = 9007199254740992 := by norm_num
        rw [e53]
        rw [e53] at h10v
        omega
      omega
    have hB : 9 * capacity / 10 * 2 ^ (53 - s) ≤ v / 2 ^ s := by
      rw [Nat.le_div_iff_mul_le hS_pos]
      calc 9 * capacity / 10 * 2 ^ (53 - s) * 2 ^ s
          = 9 * capacity / 10 * (2 ^ (53 - s) * 2 ^ s) := by ring
        _ = 9 * capacity / 10 * 2 ^ 53 := by rw [hsplit]
        _ ≤ v := hA
    have hlow : 9 * capacity / 10 * 2 ^ 53 ≤ roundToGrid v s * 2 ^ s := by
      calc 9 * capacity / 10 * 2 ^ 53
          = 9 * capacity / 10 * (2 ^ (53 - s) * 2 ^ s) := by rw [hsplit]
        _ = 9 * capacity / 10 * 2 ^ (53 - s) * 2 ^ s := by ring
        _ ≤ roundToGrid v s * 2 ^ s :=
            Nat.mul_le_mul_right _ (le_trans hB (roundToGrid_ge v s))
    have hup : roundToGrid v s * 2 ^ s < (9 * capacity / 10 + 1) * 2 ^ 53 := by
      have hmul := roundToGrid_mul_le v s
      have e53 : (2 : ℕ) ^ 53 = 9007199254740992 := by norm_num
      have e50 : (2 : ℕ) ^ 50 = 1125899906842624 := by norm_num
      rw [e53]
      rw [e53] at h10v
      rw [e50] at hcap hS_le
      omega
    have e53 : (2 : ℕ) ^ 53 = 9007199254740992 := by norm_num
    rw [e53]
    rw [e53] at hlow hup
    omega
  simp only [gcTarget, floatMul09, hfl]
  rw [hnat]

set_option maxRecDepth 100000 in
/-- C5 counterexample: at capacity 1250999896491811 the Go computation
int64(float64(capacity) * 0.9) returns 1125899906842630, while the integer
part of capacity times 9/10 is 1125899906842629: binary64 rounding crosses
the integer boundary, so the claim fails as stated for every capacity. -/
theorem gcTarget_float_counterexample :
    gcTarget 1250999896491811 ≠ ((9 * 1250999896491811 / 10 : ℕ) : ℤ) ∧
    gcTarget 1250999896491811 = 1125899906842630 ∧
    (9 * 1250999896491811 / 10 : ℕ) = 1125899906842629 := by
  refine ⟨by decide, by decide, by decide⟩

/-- Witness for C5 at capacity 100: the target is 90. -/
theorem gcTarget_eq_floor_of_le_witness :
    gcTarget 100 = ((9 * 100 / 10 : ℕ) : ℤ) :=
  gcTarget_eq_floor_of_le 100 (by norm_num)
